import Mathlib

/-!
# Verification of the hss3dump core against its specification

A shallow embedding of the hss3dump command-line tool (Go) in Lean 4:

* the HSDS identifier codec (`hsds_id.go`, `hsds_entity_type.go`):
  typed 17-byte entity identifiers, their 38-character text form, and the
  UUID / prefix / suffix sub-views with their own text forms;
* the version resolver (`versionBefore` in `main.go`);
* the filesystem store layer (`sanitizePath`, `createParentDomains`,
  `StoreDomain` in the storer source file), together with models of the
  Go standard library path helpers it calls (`filepath.Clean`,
  `filepath.Join`, `filepath.Split`, `filepath.SplitList`) for Unix,
  where `filepath.FromSlash` is the identity.

Byte strings (Go `[]byte` / `string`) are modelled as `List Nat` (each
entry one byte); filesystem paths are modelled as Lean `String`s over
their character lists.  Machine integers cannot overflow in the modelled
code (all arithmetic is on single bytes and list indices), so `Nat` is
used directly, with explicit `< 256` hypotheses where a Go `byte` is
universally quantified.
-/

/-! ## Hex codec (`encoding/hex`)

`fromHexChar` is Go's `hex.fromHexChar`; `hexDigit` indexes Go's
`hextable = "0123456789abcdef"` (so it is the lower-case encoder used by
`hex.Encode`).  `hexDecodeByte` is a one-byte `hex.Decode` step. -/

def fromHexChar (c : Nat) : Option Nat :=
  if 48 ≤ c ∧ c ≤ 57 then some (c - 48)
  else if 97 ≤ c ∧ c ≤ 102 then some (c - 97 + 10)
  else if 65 ≤ c ∧ c ≤ 70 then some (c - 65 + 10)
  else none

def hexDigit (n : Nat) : Nat :=
  if n < 10 then 48 + n else 87 + n

def hexDecodeByte (hi lo : Nat) : Option Nat :=
  match fromHexChar hi, fromHexChar lo with
  | some a, some b => some (a * 16 + b)
  | _, _ => none

/-- `hex.Encode` over a whole slice: each byte `v` becomes the two
characters `hextable[v>>4]`, `hextable[v&0x0f]`. -/
def hexSeq : List Nat → List Nat
  | [] => []
  | v :: rest => hexDigit (v / 16) :: hexDigit (v % 16) :: hexSeq rest

/-! ## The HSDS identifier codec (`hsds_id.go`, `hsds_entity_type.go`)

An `hsdsID` is 17 bytes: a one-byte HDF5 entity type plus a 128-bit
UUID.  It is modelled as a `List Nat` of length 17; text forms are
`List Nat` byte strings. -/

/-- `hsdsEntityType.Valid`: the valid entity types are `'g'` (103),
`'d'` (100) and `'t'` (116). -/
def validEntityType (t : Nat) : Bool :=
  t == 103 || t == 100 || t == 116

/-- The errors surfaced by the identifier codec: `errInvalidHSDSID`
("invalid HSDS UUID format") and `unknownEntityTypeError` carrying the
offending type byte. -/
inductive IDError where
  | invalidHSDSID
  | unknownEntityType (t : Nat)
deriving DecidableEq

/-- `nilID`, the zero value of an `hsdsID`. -/
def nilID : List Nat := List.replicate 17 0

/-- Dash positions of the 38-character text encoding
`x-xxxxxxxx-xxxxxxxx-xxxx-xxxxxx-xxxxxx` (source: `hsdsIDDashIndeces`). -/
def hsdsIDDashIndeces : List Nat := [1, 10, 19, 24, 31]

/-- Text positions of the high hex character of each of the 16 UUID
bytes (source: `hsdsByteIndices`). -/
def hsdsByteIndices : List Nat :=
  [2, 4, 6, 8, 11, 13, 15, 17, 20, 22, 25, 27, 29, 32, 34, 36]

/-- The hex-decoding loop shared by `hsdsID.UnmarshalText` (`off = 1`:
`dest := id[1:]`) and `hsdsUUID.UnmarshalText` (`off = 0`).  For each
`(i, j)` it decodes text bytes `b[j] b[j+1]` into `dest[i+off]`,
mutating `dest` in place and stopping at the first failing pair (Go
returns the error there, leaving `dest` partially written). -/
def decodeLoop (b : List Nat) (off : Nat) (dest : List Nat) :
    List (Nat × Nat) → List Nat × Bool
  | [] => (dest, true)
  | (i, j) :: rest =>
    match hexDecodeByte (b.getD j 0) (b.getD (j + 1) 0) with
    | none => (dest, false)
    | some v => decodeLoop b off (dest.set (i + off) v) rest

/-- `hsdsID.UnmarshalText`: the text must be exactly 38 bytes and carry a
valid entity type at offset 0; then the 16 hex pairs are decoded into
`id[1:]`.  The receiver `id` is the pre-call array contents (Go mutates
it in place); the result pairs the post-call contents with the returned
error, if any.  Note that the bytes at the dash offsets are never read. -/
def idUnmarshalText (id b : List Nat) : List Nat × Option IDError :=
  if b.length = 38 then
    if validEntityType (b.getD 0 0) then
      match decodeLoop b 1 (id.set 0 (b.getD 0 0)) hsdsByteIndices.enum with
      | (id', true) => (id', none)
      | (id', false) => (id', some IDError.invalidHSDSID)
    else (id, some (IDError.unknownEntityType (b.getD 0 0)))
  else (id, some IDError.invalidHSDSID)

/-- `ParseID`: unmarshals into a fresh zero `hsdsID` and returns `nilID`
together with the error if unmarshalling failed. -/
def ParseID (s : List Nat) : List Nat × Option IDError :=
  match idUnmarshalText nilID s with
  | (_, some e) => (nilID, some e)
  | (newID, none) => (newID, none)

/-- The encoding loop of `hsdsID.String` and `hsdsUUID.String`: for each
`(i, j)` it writes the two hex characters of `src[i+off]` at text
positions `j`, `j+1`. -/
def encodeLoop (src : List Nat) (off : Nat) :
    List Nat → List (Nat × Nat) → List Nat
  | b, [] => b
  | b, (i, j) :: rest =>
    encodeLoop src off
      ((b.set j (hexDigit (src.getD (i + off) 0 / 16))).set (j + 1)
        (hexDigit (src.getD (i + off) 0 % 16))) rest

/-- Writes a `'-'` (45) at each given position. -/
def setDashes : List Nat → List Nat → List Nat
  | b, [] => b
  | b, i :: rest => setDashes (b.set i 45) rest

/-- `hsdsID.String`: 38 bytes; position 0 is the raw type byte, the 16
UUID bytes are hex-encoded at `hsdsByteIndices`, and the five dash
positions are set to `'-'`. -/
def idString (id : List Nat) : List Nat :=
  setDashes
    (encodeLoop id 1 ((List.replicate 38 0).set 0 (id.getD 0 0))
      hsdsByteIndices.enum)
    hsdsIDDashIndeces

/-- `hsdsID.MarshalText`: refuses an invalid entity type, surfacing the
offending byte; otherwise returns the `String` form. -/
def idMarshalText (id : List Nat) : Except IDError (List Nat) :=
  if validEntityType (id.getD 0 0) then Except.ok (idString id)
  else Except.error (IDError.unknownEntityType (id.getD 0 0))

/-- Bytes of a Lean string literal, for writing concrete test inputs. -/
def strBytes (s : String) : List Nat :=
  s.data.map Char.toNat

def validGroupID : List Nat :=
  [103, 0xd1, 0x2a, 0x20, 0xa5, 0x6c, 0x27, 0x62, 0x2f,
   0x59, 0xa2, 0xa8, 0x2d, 0xe4, 0xaf, 0xea, 0xa7]

/-! ## Sub-views: prefix, suffix, UUID (`hsds_id.go`) -/

/-- `hsdsID.Prefix`: the first eight bytes of the ID's UUID (`id[1:9]`). -/
def prefixOfID (id : List Nat) : List Nat :=
  (id.drop 1).take 8

/-- `hsdsID.Suffix`: the last eight bytes of the ID's UUID (`id[9:]`). -/
def suffixOfID (id : List Nat) : List Nat :=
  id.drop 9

/-- `hsdsID.UUID`: all bytes except the first (`id[1:]`). -/
def uuidOfID (id : List Nat) : List Nat :=
  id.drop 1

/-- `hsdsPrefix.String`: the 17-character form `xxxxxxxx-xxxxxxxx`
(`hex.Encode(b[:8], p[:4])`, a dash, `hex.Encode(b[9:], p[4:])`). -/
def prefixString (p : List Nat) : List Nat :=
  hexSeq (p.take 4) ++ [45] ++ hexSeq (p.drop 4)

/-- `hsdsSuffix.String`: the 18-character form `xxxx-xxxxxx-xxxxxx`
(`s[:2]`, dash, `s[2:5]`, dash, `s[5:]`). -/
def suffixString (s : List Nat) : List Nat :=
  hexSeq (s.take 2) ++ [45] ++ hexSeq ((s.drop 2).take 3) ++ [45]
    ++ hexSeq (s.drop 5)

/-- Dash positions of the 36-character UUID text form
`xxxxxxxx-xxxxxxxx-xxxx-xxxxxx-xxxxxx` (source: `uuidDashIndices`). -/
def uuidDashIndices : List Nat := [8, 17, 22, 29]

/-- Text positions of the high hex character of each UUID byte
(source: `uuidByteIndices`). -/
def uuidByteIndices : List Nat :=
  [0, 2, 4, 6, 9, 11, 13, 15, 18, 20, 23, 25, 27, 30, 32, 34]

/-- `hsdsUUID.String`: 36 bytes, hex-encoded at `uuidByteIndices` with
dashes at `uuidDashIndices`. -/
def uuidString (uuid : List Nat) : List Nat :=
  setDashes (encodeLoop uuid 0 (List.replicate 36 0) uuidByteIndices.enum)
    uuidDashIndices

/-- The single error value `ErrInvalidUUID` returned by
`hsdsUUID.UnmarshalText`. -/
inductive UUIDError where
  | invalidUUID
deriving DecidableEq

/-- The dash-checking loop of `hsdsUUID.UnmarshalText`: every listed
position must hold `'-'` (45); the Go loop returns `ErrInvalidUUID` at
the first offending position. -/
def dashCheck (b : List Nat) : List Nat → Bool
  | [] => true
  | i :: rest => if b.getD i 0 = 45 then dashCheck b rest else false

/-- `hsdsUUID.UnmarshalText`: the text must be exactly 36 bytes, carry
dashes at the four `uuidDashIndices`, and decode as hex at the 16 byte
positions.  As with `idUnmarshalText`, the receiver `uuid` is the
pre-call array contents and is mutated in place. -/
def uuidUnmarshalText (uuid b : List Nat) : List Nat × Option UUIDError :=
  if b.length = 36 then
    if dashCheck b uuidDashIndices then
      match decodeLoop b 0 uuid uuidByteIndices.enum with
      | (u, true) => (u, none)
      | (u, false) => (u, some UUIDError.invalidUUID)
    else (uuid, some UUIDError.invalidUUID)
  else (uuid, some UUIDError.invalidUUID)

/-- The zero value of an `hsdsUUID`. -/
def uuid0 : List Nat := List.replicate 16 0

/-! ## The version resolver (`versionBefore` in `main.go`)

`hsdsVersion` (from `hsds_domain.go`) describes one S3 object version.
`time.Time` values are modelled as `Int` instants; `t.Local()` changes
only the display location, not the instant, and `Equal`/`Before` compare
instants, so `lm.Equal(notAfter) || lm.Before(notAfter)` is `lm ≤ notAfter`.
The `notAfter` parameter is `Option Int`: `none` models the zero
`time.Time` (`notAfter.IsZero()`). -/

structure hsdsVersion where
  ID : String
  LastModified : Int
  Size : Int
deriving DecidableEq

/-- Result of `versionBefore`.  Go either returns a version ID string or
calls `panic`, an unconditional abort distinct from every ordinary error
return; the `contractViolation` constructor models that abort together
with its message. -/
inductive VBResult where
  | contractViolation (msg : String)
  | ok (id : String)
deriving DecidableEq

/-- The front-to-back scan inside `versionBefore`: the first version
whose instant is `≤ notAfter`, if any. -/
def versionScan (notAfter : Int) : List hsdsVersion → Option String
  | [] => none
  | v :: rest =>
    if v.LastModified ≤ notAfter then some v.ID else versionScan notAfter rest

/-- `versionBefore`: aborts on an empty version list; returns the first
(newest) ID when `notAfter` is the zero time; otherwise the first ID with
instant `≤ notAfter`, falling back to the last (oldest) entry. -/
def versionBefore (availableVersions : List hsdsVersion)
    (notAfter : Option Int) : VBResult :=
  match availableVersions with
  | [] => VBResult.contractViolation "versionBefore: no versions available"
  | v :: rest =>
    match notAfter with
    | none => VBResult.ok v.ID
    | some t =>
      match versionScan t (v :: rest) with
      | some id => VBResult.ok id
      | none => VBResult.ok (((v :: rest).getLastD v).ID)

/-! ## Go `path/filepath` helpers, for Unix

The storer calls `filepath.Clean`, `filepath.Join`, `filepath.Split` and
`filepath.SplitList`.  On Unix the separator is `'/'`, the list
separator is `':'` and `filepath.FromSlash` is the identity.  These are
modelled over the underlying character lists of Lean `String`s. -/

/-- Split a character list at every occurrence of `sep`
(`strings.Split` semantics: always at least one group). -/
def splitSep (sep : Char) : List Char → List (List Char)
  | [] => [[]]
  | c :: cs =>
    match splitSep sep cs with
    | [] => [[c]]
    | g :: gs => if c = sep then [] :: g :: gs else (c :: g) :: gs

/-- Join groups with `'/'` between them (`strings.Join(elems, "/")`). -/
def joinSlash : List (List Char) → List Char
  | [] => []
  | [x] => x
  | x :: xs => x ++ '/' :: joinSlash xs

/-- One step of the element normalization inside `filepath.Clean`:
`""` and `"."` are dropped, `".."` pops a poppable element (it is kept
when the path is relative and there is nothing poppable, and dropped at
the root when the path is absolute), anything else is pushed. -/
def cleanStep (abs : Bool) (st : List (List Char)) (c : List Char) :
    List (List Char) :=
  if c = [] ∨ c = ['.'] then st
  else if c = ['.', '.'] then
    match st with
    | [] => if abs then [] else [['.', '.']]
    | top :: rest => if top = ['.', '.'] then c :: top :: rest else rest
  else c :: st

/-- The element normalization of `filepath.Clean`: process the path
elements left to right onto a stack (the stack holds them in reverse). -/
def cleanStack (abs : Bool) (st : List (List Char))
    (l : List (List Char)) : List (List Char) :=
  l.foldl (cleanStep abs) st

/-- `filepath.Clean` on Unix, on character lists: normalize the slash-
separated elements and rebuild, yielding `"/"` for an emptied absolute
path and `"."` for an emptied relative path. -/
def cleanChars (p : List Char) : List Char :=
  let abs := p.headD ' ' == '/'
  let body := joinSlash (cleanStack abs [] (splitSep '/' p)).reverse
  if abs then (if body = [] then ['/'] else '/' :: body)
  else (if body = [] then ['.'] else body)

/-- `filepath.Clean` on Unix. -/
def pathClean (p : String) : String :=
  ⟨cleanChars p.data⟩

/-- `filepath.Join` on Unix: drop leading empty elements, join the rest
with `'/'` and `Clean` the result; all-empty input yields `""`. -/
def goJoin (elems : List String) : String :=
  match elems.dropWhile (fun e => e = "") with
  | [] => ""
  | rest => ⟨cleanChars (joinSlash (rest.map String.data))⟩

/-- `filepath.Split` on Unix: split after the final slash, the directory
part keeping its trailing slash. -/
def pathSplit (p : String) : String × String :=
  let f := (p.data.reverse.takeWhile (fun c => c ≠ '/')).reverse
  (⟨p.data.take (p.data.length - f.length)⟩, ⟨f⟩)

/-- `filepath.SplitList` on Unix: `""` yields no elements, anything else
is split at every `':'` (the OS path-list separator — note: not at
slashes). -/
def splitList (p : String) : List String :=
  if p = "" then []
  else (splitSep ':' p.data).map (fun cs => (⟨cs⟩ : String))

/-! ## The filesystem store layer (`filesystemHSDSStorer`)

`hsdsDomain` (from `hsds_domain.go`) is the domain metadata document;
the ACL map is modelled as an association list and the two optional
float64 epoch timestamps as opaque `Int` values (no claim computes with
them).  The store operations are modelled by the list of
`(path, document)` writes they perform against a filesystem whose
pre-existing paths are `existing`. -/

structure hsdsPermissions where
  Create : Bool
  Read : Bool
  Update : Bool
  Delete : Bool
  ReadACL : Bool
  UpdateACL : Bool
deriving DecidableEq

structure hsdsDomain where
  ACLs : List (String × hsdsPermissions)
  Root : Option (List Nat)
  Owner : String
  Created : Int
  LastModified : Int
deriving DecidableEq

/-- The storer's error type: `pathError` says the name does not sanitize
to a valid target ("'%s' is not a valid filename"). -/
inductive StoreError where
  | pathError (path : String)
deriving DecidableEq

instance {ε α : Type} [DecidableEq ε] [DecidableEq α] :
    DecidableEq (Except ε α) := fun x y =>
  match x, y with
  | Except.error e, Except.error f =>
    if h : e = f then isTrue (by rw [h]) else isFalse (by simp [h])
  | Except.error _, Except.ok _ => isFalse (fun hc => Except.noConfusion hc)
  | Except.ok _, Except.error _ => isFalse (fun hc => Except.noConfusion hc)
  | Except.ok a, Except.ok b =>
    if h : a = b then isTrue (by rw [h]) else isFalse (by simp [h])

/-- `sanitizePath`: join the name below `"/"` (normalizing it), reject
the result if it is exactly `"/"`, and otherwise join it below `root`. -/
def sanitizePath (root name : String) : Except StoreError String :=
  let n := goJoin ["/", name]
  if n = "/" then Except.error (StoreError.pathError n)
  else Except.ok (goJoin [root, n])

/-- The marker-creation loop of `createParentDomains`: `dn` accumulates
`filepath.Join(dn, subDir, ".domain.json")` across iterations; a marker
is written only where none exists (`O_EXCL`; on `ErrExist` Go continues
with the accumulated `dn`). -/
def markerWrites (parent : hsdsDomain) (existing : List String) :
    String → List String → List (String × hsdsDomain)
  | _, [] => []
  | dn, subDir :: rest =>
    let dn2 := goJoin [dn, subDir, ".domain.json"]
    if dn2 ∈ existing then markerWrites parent existing dn2 rest
    else (dn2, parent) :: markerWrites parent existing dn2 rest

/-- `createParentDomains`: clean the name (nothing to do for `"."`),
sanitize it below `root` (then `MkdirAll`, not modelled as a write), and
create a `.domain.json` marker — the domain with `Root` cleared — for
each element that `filepath.SplitList` finds in the name's directory
part. -/
def createParentDomains (root name : String) (domain : hsdsDomain)
    (existing : List String) : Except StoreError (List (String × hsdsDomain)) :=
  let name1 := pathClean name
  if name1 = "." then Except.ok []
  else
    match sanitizePath root name1 with
    | Except.error e => Except.error e
    | Except.ok _dirName =>
      let parentDirs := splitList (pathSplit name1).1
      Except.ok (markerWrites { domain with Root := none } existing root parentDirs)

/-- `filesystemHSDSStorer.StoreDomain`: create the parent-domain
markers, then write the domain document at
`root`-sanitized `Join(name, ".domain.json")`.  (Go ignores the error of
`openForWriting` here; that sanitize step cannot fail because the joined
name always ends in a `.domain.json` element, so the error branch below
is unreachable and only kept for shape.) -/
def storeDomain (root name : String) (domain : hsdsDomain)
    (existing : List String) : Except StoreError (List (String × hsdsDomain)) :=
  match createParentDomains root name domain existing with
  | Except.error e => Except.error e
  | Except.ok writes =>
    match sanitizePath root (goJoin [name, ".domain.json"]) with
    | Except.error e => Except.error e
    | Except.ok p => Except.ok (writes ++ [(p, domain)])

/-- The paths a store operation writes to. -/
def writtenPaths : Except StoreError (List (String × hsdsDomain)) → List String
  | Except.error _ => []
  | Except.ok l => l.map Prod.fst

/-- Follows the spec's words (§4.4 step 5): "for every path segment
between the store root and the domain path, create an ancestor marker
document".  For the cleaned relative domain path `s1/…/sn` these are the
marker paths `root/s1/.domain.json`, …, `root/s1/…/s(n-1)/.domain.json`,
one per proper ancestor directory. -/
def specAncestorMarkerPaths (root name : String) : List String :=
  let segs := (splitSep '/' (pathClean name).data).filter (fun s => s ≠ [])
  ((List.range segs.length).drop 1).map
    (fun k => goJoin [root, ⟨joinSlash (segs.take k)⟩, ".domain.json"])

def exampleDomain : hsdsDomain :=
  { ACLs := [("admin", ⟨true, true, true, true, true, true⟩)]
    Root := some validGroupID
    Owner := "admin"
    Created := 1664982407
    LastModified := 1665385619 }

/-- The 32 text offsets of the UUID form that must hold hex digits (the
two characters of each byte position). -/
def uuidHexOffsets : List Nat := uuidByteIndices.flatMap (fun j => [j, j + 1])

/-- Follows the spec's words: a target path, "resolved relative to the
configured root". -/
def resolveRelative (root name : String) : String :=
  pathClean (root ++ "/" ++ name)

/-- Follows the spec's words: a target path escapes the configured root
when its resolution relative to the root is neither the root itself nor
strictly below it. -/
def escapesRoot (root name : String) : Bool :=
  !(resolveRelative root name == root)
    && !((root ++ "/").data.isPrefixOf (resolveRelative root name).data)

/-- A plain path element: non-empty, not `"."`, not `".."`, and free of
separators — exactly what `cleanStep` pushes in absolute mode. -/
def plainSeg (s : List Char) : Prop :=
  s ≠ [] ∧ s ≠ ['.'] ∧ s ≠ ['.', '.'] ∧ '/' ∉ s

/-! ## Concrete evaluations of the embedded definitions -/

example :
    ParseID (strBytes "g-d12a20a5-6c27622f-59a2-a82de4-afeaa7")
      = (validGroupID, none) := by decide

example : idString validGroupID = strBytes "g-d12a20a5-6c27622f-59a2-a82de4-afeaa7" := by decide

example :
    ParseID (strBytes "gXd12a20a5-6c27622f-59a2-a82de4-afeaa7")
      = (validGroupID, none) := by decide

example :
    uuidUnmarshalText uuid0 (strBytes "d12a20a5-6c27622f-59a2-a82de4-afeaa7")
      = (uuidOfID validGroupID, none) := by decide

example : uuidString (uuidOfID validGroupID)
    = strBytes "d12a20a5-6c27622f-59a2-a82de4-afeaa7" := by decide

example :
    versionBefore [⟨"V3", 3, 10⟩, ⟨"V2", 2, 20⟩, ⟨"V1", 1, 30⟩] (some 2)
      = VBResult.ok "V2" := by decide

example :
    versionBefore [⟨"V3", 3, 10⟩, ⟨"V2", 2, 20⟩, ⟨"V1", 1, 30⟩] (some 0)
      = VBResult.ok "V1" := by decide

example : pathClean "home/user/domain.h5/" = "home/user/domain.h5" := by decide

example : pathClean "a/./../b//c" = "b/c" := by decide

example : pathClean "/../a" = "/a" := by decide

example : pathClean "" = "." := by decide

example : goJoin ["/", "../a"] = "/a" := by decide

example : pathSplit "home/user/domain.h5" = ("home/user/", "domain.h5") := by decide

example : splitList "home/user/" = ["home/user/"] := by decide

example :
    storeDomain "/data" "home/user/domain.h5" exampleDomain []
      = Except.ok
          [("/data/home/user/.domain.json", { exampleDomain with Root := none }),
           ("/data/home/user/domain.h5/.domain.json", exampleDomain)] := by decide

example :
    specAncestorMarkerPaths "/data" "home/user/domain.h5"
      = ["/data/home/.domain.json", "/data/home/user/.domain.json"] := by decide


/-! ## Supporting lemmas -/

lemma versionScan_eq_find (t : Int) :
    ∀ l : List hsdsVersion,
      versionScan t l
        = (l.find? (fun v => v.LastModified ≤ t)).map hsdsVersion.ID
  | [] => rfl
  | v :: rest => by
    by_cases h : v.LastModified ≤ t
    · simp [versionScan, List.find?_cons, h]
    · simp [versionScan, List.find?_cons, h, versionScan_eq_find t rest]

lemma fromHexChar_hexDigit (n : Nat) (h : n < 16) :
    fromHexChar (hexDigit n) = some n := by
  interval_cases n <;> decide

lemma hexDecodeByte_hexDigit (b : Nat) (h : b < 256) :
    hexDecodeByte (hexDigit (b / 16)) (hexDigit (b % 16)) = some b := by
  unfold hexDecodeByte
  rw [fromHexChar_hexDigit (b / 16) (by omega),
    fromHexChar_hexDigit (b % 16) (by omega)]
  exact congrArg some (by omega)

lemma hexDecodeByte_isSome (x y : Nat) (hx : (fromHexChar x).isSome = true)
    (hy : (fromHexChar y).isSome = true) :
    (hexDecodeByte x y).isSome = true := by
  rw [Option.isSome_iff_exists] at hx hy
  obtain ⟨a, ha⟩ := hx
  obtain ⟨c, hc⟩ := hy
  unfold hexDecodeByte
  rw [ha, hc]
  rfl

lemma decodeLoop_cons_some (b : List Nat) (off : Nat) (dest : List Nat)
    (i j v : Nat) (ps : List (Nat × Nat))
    (h : hexDecodeByte (b.getD j 0) (b.getD (j + 1) 0) = some v) :
    decodeLoop b off dest ((i, j) :: ps)
      = decodeLoop b off (dest.set (i + off) v) ps := by
  simp only [decodeLoop, h]

lemma decodeLoop_ok (b : List Nat) (off : Nat) (ps : List (Nat × Nat))
    (h : ∀ p ∈ ps,
      (hexDecodeByte (b.getD p.2 0) (b.getD (p.2 + 1) 0)).isSome = true) :
    ∀ dest, (decodeLoop b off dest ps).2 = true := by
  induction ps with
  | nil => intro dest; rfl
  | cons p rest ih =>
    intro dest
    obtain ⟨i, j⟩ := p
    have hp := h (i, j) (List.mem_cons_self _ _)
    rw [Option.isSome_iff_exists] at hp
    obtain ⟨v, hv⟩ := hp
    rw [decodeLoop_cons_some b off dest i j v rest hv]
    exact ih (fun q hq => h q (List.mem_cons_of_mem _ hq)) _

lemma decodeLoop_congr (b c : List Nat) (off : Nat) (ps : List (Nat × Nat))
    (h : ∀ p ∈ ps, b.getD p.2 0 = c.getD p.2 0
      ∧ b.getD (p.2 + 1) 0 = c.getD (p.2 + 1) 0) :
    ∀ dest, decodeLoop b off dest ps = decodeLoop c off dest ps := by
  induction ps with
  | nil => intro dest; rfl
  | cons p rest ih =>
    intro dest
    obtain ⟨i, j⟩ := p
    simp only [decodeLoop]
    rw [show b.getD j 0 = c.getD j 0 from (h (i, j) (List.mem_cons_self _ _)).1,
      show b.getD (j + 1) 0 = c.getD (j + 1) 0 from
        (h (i, j) (List.mem_cons_self _ _)).2]
    cases hx : hexDecodeByte (c.getD j 0) (c.getD (j + 1) 0) with
    | none => rfl
    | some v => exact ih (fun q hq => h q (List.mem_cons_of_mem _ hq)) _

lemma dashCheck_of_all (b : List Nat) :
    ∀ l : List Nat, (∀ i ∈ l, b.getD i 0 = 45) → dashCheck b l = true
  | [], _ => rfl
  | a :: rest, h => by
    simp only [dashCheck, if_pos (h a (List.mem_cons_self a rest))]
    exact dashCheck_of_all b rest (fun i hi => h i (List.mem_cons_of_mem a hi))

lemma dashCheck_of_bad (b : List Nat) :
    ∀ l : List Nat, ∀ i ∈ l, b.getD i 0 ≠ 45 → dashCheck b l = false := by
  intro l
  induction l with
  | nil => intro i hi; exact absurd hi (List.not_mem_nil i)
  | cons a rest ih =>
    intro i hi hne
    simp only [dashCheck]
    by_cases ha : b.getD a 0 = 45
    · rw [if_pos ha]
      rcases List.mem_cons.mp hi with rfl | hm
      · exact absurd ha hne
      · exact ih i hm hne
    · rw [if_neg ha]

/-! ## The version resolver claims -/

/-- C4: for every non-empty version sequence, `versionBefore` with an
absent cutoff returns the first (newest) ID; with a cutoff it returns
the ID of the first element whose `LastModified` is `≤` the cutoff
(inclusive boundary), falling back to the last (oldest) element's ID
when no element satisfies the cutoff; and it always produces a version. -/
theorem versionBefore_spec (v : hsdsVersion) (rest : List hsdsVersion) (t : Int) :
    versionBefore (v :: rest) none = VBResult.ok v.ID
    ∧ (∀ w, (v :: rest).find? (fun x => x.LastModified ≤ t) = some w →
        versionBefore (v :: rest) (some t) = VBResult.ok w.ID)
    ∧ ((v :: rest).find? (fun x => x.LastModified ≤ t) = none →
        versionBefore (v :: rest) (some t)
          = VBResult.ok (((v :: rest).getLastD v).ID))
    ∧ (∀ c : Option Int, ∃ id, versionBefore (v :: rest) c = VBResult.ok id) := by
  refine ⟨rfl, ?_, ?_, ?_⟩
  · intro w hw
    show (match versionScan t (v :: rest) with
      | some id => VBResult.ok id
      | none => VBResult.ok (((v :: rest).getLastD v).ID)) = VBResult.ok w.ID
    rw [versionScan_eq_find, hw]
    rfl
  · intro hn
    show (match versionScan t (v :: rest) with
      | some id => VBResult.ok id
      | none => VBResult.ok (((v :: rest).getLastD v).ID))
        = VBResult.ok (((v :: rest).getLastD v).ID)
    rw [versionScan_eq_find, hn]
    rfl
  · intro c
    match c with
    | none => exact ⟨v.ID, rfl⟩
    | some t' =>
      match hs : versionScan t' (v :: rest) with
      | some id =>
        exact ⟨id, by
          show (match versionScan t' (v :: rest) with
            | some id => VBResult.ok id
            | none => VBResult.ok (((v :: rest).getLastD v).ID)) = VBResult.ok id
          rw [hs]⟩
      | none =>
        exact ⟨((v :: rest).getLastD v).ID, by
          show (match versionScan t' (v :: rest) with
            | some id => VBResult.ok id
            | none => VBResult.ok (((v :: rest).getLastD v).ID))
              = VBResult.ok (((v :: rest).getLastD v).ID)
          rw [hs]⟩

/-- Witness for `versionBefore_spec` on the spec's three-version example
`[V3@3, V2@2, V1@1]` (newest first). -/
theorem versionBefore_spec_witness :
    versionBefore [⟨"V3", 3, 10⟩, ⟨"V2", 2, 20⟩, ⟨"V1", 1, 30⟩] (some 2)
      = VBResult.ok "V2"
    ∧ versionBefore [⟨"V3", 3, 10⟩, ⟨"V2", 2, 20⟩, ⟨"V1", 1, 30⟩] none
      = VBResult.ok "V3"
    ∧ versionBefore [⟨"V3", 3, 10⟩, ⟨"V2", 2, 20⟩, ⟨"V1", 1, 30⟩] (some 0)
      = VBResult.ok "V1" := by
  refine ⟨?_, ?_, ?_⟩
  · exact (versionBefore_spec ⟨"V3", 3, 10⟩ [⟨"V2", 2, 20⟩, ⟨"V1", 1, 30⟩] 2).2.1
      ⟨"V2", 2, 20⟩ (by decide)
  · exact (versionBefore_spec ⟨"V3", 3, 10⟩ [⟨"V2", 2, 20⟩, ⟨"V1", 1, 30⟩] 0).1
  · exact (versionBefore_spec ⟨"V3", 3, 10⟩ [⟨"V2", 2, 20⟩, ⟨"V1", 1, 30⟩] 0).2.2.1
      (by decide)

/-! ## The identifier codec claims -/

/-- C7: for every 38-byte input whose first byte is not a valid entity
type, `ParseID` fails with `unknownEntityType` carrying that byte; and
`MarshalText` on an ID whose type byte is invalid fails with the same
error carrying the byte. -/
theorem parse_unknown_type :
    (∀ b : List Nat, b.length = 38 → validEntityType (b.getD 0 0) = false →
      ParseID b = (nilID, some (IDError.unknownEntityType (b.getD 0 0))))
    ∧ (∀ id : List Nat, validEntityType (id.getD 0 0) = false →
      idMarshalText id
        = Except.error (IDError.unknownEntityType (id.getD 0 0))) := by
  constructor
  · intro b hb hv
    unfold ParseID idUnmarshalText
    rw [if_pos hb, hv]
    rfl
  · intro id hv
    unfold idMarshalText
    rw [hv]
    rfl

/-- Witness for `parse_unknown_type`: `Parse` of the `x-…` example fails
with `unknownEntityType 'x'` (byte 120), and `Format` of an ID with type
byte `'x'` fails identically. -/
theorem parse_unknown_type_witness :
    ParseID (strBytes "x-d12a20a5-6c27622f-59a2-a82de4-afeaa7")
      = (nilID, some (IDError.unknownEntityType 120))
    ∧ idMarshalText (120 :: List.replicate 16 0)
      = Except.error (IDError.unknownEntityType 120) := by
  constructor
  · exact parse_unknown_type.1 _ (by decide) (by decide)
  · exact parse_unknown_type.2 _ (by decide)

/-- C9: whenever `ParseID` reports an error — for any reason, including a
hex failure partway through the 16 UUID bytes — the ID it returns is
exactly `nilID`, never a partially decoded value. -/
theorem parseID_error_nil (s : List Nat) (e : IDError)
    (h : (ParseID s).2 = some e) : (ParseID s).1 = nilID := by
  unfold ParseID at h ⊢
  rcases hu : idUnmarshalText nilID s with ⟨d, o⟩
  rw [hu] at h
  cases o with
  | some e' => rfl
  | none => exact Option.noConfusion h

/-- Witness for `parseID_error_nil`: an input whose final hex pair is
bad fails after `UnmarshalText` has already written the type byte and
fifteen UUID bytes into its receiver (third conjunct), yet `ParseID`
still returns `nilID`. -/
theorem parseID_error_nil_witness :
    (ParseID (strBytes "g-d12a20a5-6c27622f-59a2-a82de4-afeaZZ")).2
      = some IDError.invalidHSDSID
    ∧ (ParseID (strBytes "g-d12a20a5-6c27622f-59a2-a82de4-afeaZZ")).1 = nilID
    ∧ (idUnmarshalText nilID
        (strBytes "g-d12a20a5-6c27622f-59a2-a82de4-afeaZZ")).1 ≠ nilID := by
  refine ⟨by decide, parseID_error_nil _ IDError.invalidHSDSID (by decide),
    by decide⟩

/-- C1 counterexample: a 38-character input with a non-dash character
(`'X'`) at dash offset 1 is NOT rejected — it parses successfully, to
the same ID as the well-formed string, because `UnmarshalText` never
reads the dash offsets. -/
theorem parse_dash_counterexample :
    (strBytes "gXd12a20a5-6c27622f-59a2-a82de4-afeaa7").length = 38
    ∧ (strBytes "gXd12a20a5-6c27622f-59a2-a82de4-afeaa7").getD 1 0 ≠ 45
    ∧ ParseID (strBytes "gXd12a20a5-6c27622f-59a2-a82de4-afeaa7")
        = (validGroupID, none) := by decide

/-- C1 as amended: `ParseID` never inspects the bytes at the dash
offsets `{1,10,19,24,31}` — two length-38 inputs that agree at every
other offset parse to exactly the same result, so a non-dash character
at a dash offset is never rejected. -/
theorem parseID_ignores_dash_offsets (b c : List Nat)
    (hb : b.length = 38) (hc : c.length = 38)
    (h : ∀ k, k < 38 → k ∉ hsdsIDDashIndeces → b.getD k 0 = c.getD k 0) :
    ParseID b = ParseID c := by
  have h0 : b.getD 0 0 = c.getD 0 0 := h 0 (by omega) (by decide)
  have hpairs : ∀ p ∈ hsdsByteIndices.enum,
      b.getD p.2 0 = c.getD p.2 0 ∧ b.getD (p.2 + 1) 0 = c.getD (p.2 + 1) 0 := by
    intro p hp
    rw [show hsdsByteIndices.enum
      = [(0, 2), (1, 4), (2, 6), (3, 8), (4, 11), (5, 13), (6, 15), (7, 17),
         (8, 20), (9, 22), (10, 25), (11, 27), (12, 29), (13, 32), (14, 34),
         (15, 36)] from rfl] at hp
    fin_cases hp <;>
      exact ⟨h _ (by decide) (by decide), h _ (by decide) (by decide)⟩
  unfold ParseID idUnmarshalText
  rw [if_pos hb, if_pos hc, h0]
  by_cases hv : validEntityType (c.getD 0 0) = true
  · rw [if_pos hv, if_pos hv, decodeLoop_congr b c 1 _ hpairs]
  · rw [if_neg hv, if_neg hv]

/-- Witness for `parseID_ignores_dash_offsets`: the `'X'`-at-offset-1
input and the well-formed input parse identically, and the parse
succeeds. -/
theorem parseID_ignores_dash_offsets_witness :
    ParseID (strBytes "gXd12a20a5-6c27622f-59a2-a82de4-afeaa7")
      = ParseID (strBytes "g-d12a20a5-6c27622f-59a2-a82de4-afeaa7")
    ∧ (ParseID (strBytes "g-d12a20a5-6c27622f-59a2-a82de4-afeaa7")).2
        = none := by
  constructor
  · exact parseID_ignores_dash_offsets _ _ (by decide) (by decide) (by decide)
  · decide

/-- C8: the UUID text parser rejects every input whose length is not 36
and every input with a non-dash at one of the offsets `{8,17,22,29}`;
and accepts every 36-byte input with dashes at those offsets and hex
digits at the 32 remaining offsets. -/
theorem uuidUnmarshal_spec :
    (∀ (u b : List Nat), b.length ≠ 36 →
      (uuidUnmarshalText u b).2 = some UUIDError.invalidUUID)
    ∧ (∀ (u b : List Nat) (i : Nat), i ∈ uuidDashIndices → b.getD i 0 ≠ 45 →
      (uuidUnmarshalText u b).2 = some UUIDError.invalidUUID)
    ∧ (∀ (u b : List Nat), b.length = 36 →
      (∀ i ∈ uuidDashIndices, b.getD i 0 = 45) →
      (∀ j ∈ uuidHexOffsets, (fromHexChar (b.getD j 0)).isSome = true) →
      ∃ u', uuidUnmarshalText u b = (u', none)) := by
  refine ⟨?_, ?_, ?_⟩
  · intro u b hne
    unfold uuidUnmarshalText
    rw [if_neg hne]
  · intro u b i hi hbad
    unfold uuidUnmarshalText
    by_cases hlen : b.length = 36
    · rw [if_pos hlen, dashCheck_of_bad b uuidDashIndices i hi hbad]
      rfl
    · rw [if_neg hlen]
  · intro u b hlen hdash hhex
    unfold uuidUnmarshalText
    rw [if_pos hlen, if_pos (dashCheck_of_all b uuidDashIndices hdash)]
    have hp : ∀ p ∈ uuidByteIndices.enum,
        (hexDecodeByte (b.getD p.2 0) (b.getD (p.2 + 1) 0)).isSome = true := by
      intro p hp
      rw [show uuidByteIndices.enum
        = [(0, 0), (1, 2), (2, 4), (3, 6), (4, 9), (5, 11), (6, 13), (7, 15),
           (8, 18), (9, 20), (10, 23), (11, 25), (12, 27), (13, 30), (14, 32),
           (15, 34)] from rfl] at hp
      fin_cases hp <;>
        exact hexDecodeByte_isSome _ _ (hhex _ (by decide)) (hhex _ (by decide))
    have hok := decodeLoop_ok b 0 uuidByteIndices.enum hp u
    rcases hd : decodeLoop b 0 u uuidByteIndices.enum with ⟨d, ok⟩
    rw [hd] at hok
    refine ⟨d, ?_⟩
    cases ok with
    | false => simp at hok
    | true => rfl

/-- Witness for `uuidUnmarshal_spec`: a short input and a non-dash at
offset 8 are rejected; the canonical 36-character UUID string parses. -/
theorem uuidUnmarshal_spec_witness :
    (uuidUnmarshalText uuid0 (strBytes "abc")).2 = some UUIDError.invalidUUID
    ∧ (uuidUnmarshalText uuid0
        (strBytes "d12a20a5X6c27622f-59a2-a82de4-afeaa7")).2
        = some UUIDError.invalidUUID
    ∧ (uuidUnmarshalText uuid0
        (strBytes "d12a20a5-6c27622f-59a2-a82de4-afeaa7")).2 = none := by
  refine ⟨?_, ?_, ?_⟩
  · exact uuidUnmarshal_spec.1 uuid0 _ (by decide)
  · exact uuidUnmarshal_spec.2.1 uuid0 _ 8 (by decide) (by decide)
  · obtain ⟨u', hu⟩ := uuidUnmarshal_spec.2.2 uuid0
      (strBytes "d12a20a5-6c27622f-59a2-a82de4-afeaa7")
      (by decide) (by decide) (by decide)
    rw [hu]

/-- C6: calling `versionBefore` on an empty version sequence is an
unconditional abort (Go `panic`), distinguishable from every ordinary
`ok` result — never a recoverable error or fallback value. -/
theorem versionBefore_empty_contract (c : Option Int) :
    versionBefore [] c
      = VBResult.contractViolation "versionBefore: no versions available"
    ∧ ∀ id, versionBefore [] c ≠ VBResult.ok id :=
  ⟨rfl, fun _ hc => VBResult.noConfusion hc⟩

/-! ## Round-trip and decomposition of the text forms -/

/-- C10: the full ID's text form decomposes into the sub-views' text
forms: `String(id)` is the type byte, a dash (45), then
`String(UUID(id))`; and `String(UUID(id))` is `String(Prefix(id))`, a
dash, then `String(Suffix(id))`. -/
theorem idString_decomposition
    (t b0 b1 b2 b3 b4 b5 b6 b7 b8 b9 b10 b11 b12 b13 b14 b15 : Nat) :
    idString [t, b0, b1, b2, b3, b4, b5, b6, b7, b8, b9, b10, b11, b12, b13, b14, b15]
      = t :: 45 :: uuidString (uuidOfID [t, b0, b1, b2, b3, b4, b5, b6, b7, b8, b9, b10, b11, b12, b13, b14, b15])
    ∧ uuidString (uuidOfID [t, b0, b1, b2, b3, b4, b5, b6, b7, b8, b9, b10, b11, b12, b13, b14, b15])
      = prefixString (prefixOfID [t, b0, b1, b2, b3, b4, b5, b6, b7, b8, b9, b10, b11, b12, b13, b14, b15]) ++ 45 :: suffixString (suffixOfID [t, b0, b1, b2, b3, b4, b5, b6, b7, b8, b9, b10, b11, b12, b13, b14, b15]) := by
  constructor
  · simp only [idString, uuidString, uuidOfID]
    rw [show hsdsByteIndices.enum
    = [(0, 2), (1, 4), (2, 6), (3, 8), (4, 11), (5, 13), (6, 15), (7, 17),
       (8, 20), (9, 22), (10, 25), (11, 27), (12, 29), (13, 32), (14, 34),
       (15, 36)] by decide]
    rw [show uuidByteIndices.enum
    = [(0, 0), (1, 2), (2, 4), (3, 6), (4, 9), (5, 11), (6, 13), (7, 15),
       (8, 18), (9, 20), (10, 23), (11, 25), (12, 27), (13, 30), (14, 32),
       (15, 34)] by decide]
    simp [encodeLoop, setDashes, hsdsIDDashIndeces, uuidDashIndices,
      List.replicate]
  · simp only [uuidString, uuidOfID, prefixOfID, suffixOfID, prefixString,
      suffixString]
    rw [show uuidByteIndices.enum
    = [(0, 0), (1, 2), (2, 4), (3, 6), (4, 9), (5, 11), (6, 13), (7, 15),
       (8, 18), (9, 20), (10, 23), (11, 25), (12, 27), (13, 30), (14, 32),
       (15, 34)] by decide]
    simp [encodeLoop, setDashes, uuidDashIndices, List.replicate, hexSeq]

/-- C5: for every valid entity type byte and every 16 UUID bytes,
formatting the 17-byte ID succeeds and parsing the formatted text
recovers exactly the original ID: `Parse (Format id) = id`. -/
theorem parse_format_roundtrip
    (t b0 b1 b2 b3 b4 b5 b6 b7 b8 b9 b10 b11 b12 b13 b14 b15 : Nat)
    (ht : validEntityType t = true)
    (h0 : b0 < 256) (h1 : b1 < 256) (h2 : b2 < 256) (h3 : b3 < 256) (h4 : b4 < 256) (h5 : b5 < 256) (h6 : b6 < 256) (h7 : b7 < 256) (h8 : b8 < 256) (h9 : b9 < 256) (h10 : b10 < 256) (h11 : b11 < 256) (h12 : b12 < 256) (h13 : b13 < 256) (h14 : b14 < 256) (h15 : b15 < 256) :
    idMarshalText [t, b0, b1, b2, b3, b4, b5, b6, b7, b8, b9, b10, b11, b12, b13, b14, b15] = Except.ok (idString [t, b0, b1, b2, b3, b4, b5, b6, b7, b8, b9, b10, b11, b12, b13, b14, b15])
    ∧ ParseID (idString [t, b0, b1, b2, b3, b4, b5, b6, b7, b8, b9, b10, b11, b12, b13, b14, b15]) = ([t, b0, b1, b2, b3, b4, b5, b6, b7, b8, b9, b10, b11, b12, b13, b14, b15], none) := by
  constructor
  · simp [idMarshalText, ht]
  · simp only [idString]
    rw [show hsdsByteIndices.enum
    = [(0, 2), (1, 4), (2, 6), (3, 8), (4, 11), (5, 13), (6, 15), (7, 17),
       (8, 20), (9, 22), (10, 25), (11, 27), (12, 29), (13, 32), (14, 34),
       (15, 36)] by decide]
    simp only [encodeLoop, setDashes, List.replicate]
    simp only [ParseID, idUnmarshalText]
    rw [show hsdsByteIndices.enum
    = [(0, 2), (1, 4), (2, 6), (3, 8), (4, 11), (5, 13), (6, 15), (7, 17),
       (8, 20), (9, 22), (10, 25), (11, 27), (12, 29), (13, 32), (14, 34),
       (15, 36)] by decide]
    simp [decodeLoop, nilID, List.replicate, ht, h0, h1, h2, h3, h4, h5, h6, h7, h8, h9, h10, h11, h12, h13, h14, h15,
      hexDecodeByte_hexDigit]

/-- Witness for `parse_format_roundtrip` at the known example ID. -/
theorem parse_format_roundtrip_witness :
    idMarshalText validGroupID = Except.ok (idString validGroupID)
    ∧ ParseID (idString validGroupID) = (validGroupID, none) :=
  parse_format_roundtrip 103 0xd1 0x2a 0x20 0xa5 0x6c 0x27 0x62 0x2f
    0x59 0xa2 0xa8 0x2d 0xe4 0xaf 0xea 0xa7 (by decide) (by decide)
    (by decide) (by decide) (by decide) (by decide) (by decide) (by decide)
    (by decide) (by decide) (by decide) (by decide) (by decide) (by decide)
    (by decide) (by decide) (by decide)

/-! ## The store-layer claims -/

/-- C2 (code bug): storing a domain under the three-segment path
`home/user/domain.h5` with store root `/data` writes the domain document
and a single ancestor marker, in the immediate parent directory only —
`filepath.SplitList` splits on the OS list separator `':'`, never on
`'/'`, so the whole parent path is one "segment".  The spec's
ancestor-marker set also contains `/data/home/.domain.json`, which the
code never creates.  The marker that is created does carry the domain
with `Root` cleared. -/
theorem storeDomain_marker_divergence :
    storeDomain "/data" "home/user/domain.h5" exampleDomain []
      = Except.ok
          [("/data/home/user/.domain.json", { exampleDomain with Root := none }),
           ("/data/home/user/domain.h5/.domain.json", exampleDomain)]
    ∧ specAncestorMarkerPaths "/data" "home/user/domain.h5"
      = ["/data/home/.domain.json", "/data/home/user/.domain.json"]
    ∧ "/data/home/.domain.json"
        ∉ writtenPaths (storeDomain "/data" "home/user/domain.h5"
            exampleDomain []) := by
  decide

/-- C3 counterexample: the target path `../a` escapes the root `/store`
(it resolves to `/a`), yet `sanitizePath` does not fail — it silently
corrects the path to `/store/a`. -/
theorem sanitizePath_escape_counterexample :
    escapesRoot "/store" "../a" = true
    ∧ sanitizePath "/store" "../a" = Except.ok "/store/a" := by
  decide

/-! ## Path algebra, towards the amended path-safety statement -/

lemma splitSep_ne_nil (sep : Char) : ∀ l : List Char, splitSep sep l ≠ []
  | [] => by simp [splitSep]
  | c :: cs => by
    simp only [splitSep]
    rcases h : splitSep sep cs with _ | ⟨g, gs⟩
    · simp
    · by_cases hc : c = sep <;> simp [hc]

lemma splitSep_cons (sep c : Char) (cs g : List Char) (gs : List (List Char))
    (h : splitSep sep cs = g :: gs) :
    splitSep sep (c :: cs)
      = if c = sep then [] :: g :: gs else (c :: g) :: gs := by
  simp only [splitSep, h]

lemma splitSep_cons_sep (sep : Char) (cs : List Char) :
    splitSep sep (sep :: cs) = [] :: splitSep sep cs := by
  rcases h : splitSep sep cs with _ | ⟨g, gs⟩
  · exact absurd h (splitSep_ne_nil sep cs)
  · rw [splitSep_cons sep sep cs g gs h, if_pos rfl]

lemma splitSep_append (sep : Char) : ∀ xs ys : List Char,
    splitSep sep (xs ++ sep :: ys) = splitSep sep xs ++ splitSep sep ys
  | [], ys => by
    show splitSep sep (sep :: ys) = [[]] ++ splitSep sep ys
    rw [splitSep_cons_sep]
    rfl
  | x :: xs, ys => by
    show splitSep sep (x :: (xs ++ sep :: ys))
      = splitSep sep (x :: xs) ++ splitSep sep ys
    rcases h : splitSep sep xs with _ | ⟨g, gs⟩
    · exact absurd h (splitSep_ne_nil sep xs)
    · have hl : splitSep sep (xs ++ sep :: ys)
          = (g :: gs) ++ splitSep sep ys := by
        rw [splitSep_append sep xs ys, h]
      rw [splitSep_cons sep x (xs ++ sep :: ys) g (gs ++ splitSep sep ys)
          (by rw [hl]; rfl),
        splitSep_cons sep x xs g gs h]
      by_cases hc : x = sep <;> simp [hc]

lemma splitSep_no_sep (sep : Char) : ∀ l : List Char, ∀ s ∈ splitSep sep l, sep ∉ s
  | [] => by
    intro s hs
    simp [splitSep] at hs
    subst hs
    simp
  | c :: cs => by
    intro s hs
    rcases h : splitSep sep cs with _ | ⟨g, gs⟩
    · exact absurd h (splitSep_ne_nil sep cs)
    · rw [splitSep_cons sep c cs g gs h] at hs
      by_cases hc : c = sep
      · rw [if_pos hc] at hs
        rcases List.mem_cons.mp hs with rfl | hs'
        · simp
        · exact splitSep_no_sep sep cs s (by rw [h]; exact hs')
      · rw [if_neg hc] at hs
        rcases List.mem_cons.mp hs with rfl | hs'
        · intro hmem
          rcases List.mem_cons.mp hmem with he | hg
          · exact hc he.symm
          · exact splitSep_no_sep sep cs g
              (by rw [h]; exact List.mem_cons_self g gs) hg
        · exact splitSep_no_sep sep cs s
            (by rw [h]; exact List.mem_cons_of_mem g hs')

lemma splitSep_of_no_sep (sep : Char) : ∀ x : List Char, sep ∉ x → splitSep sep x = [x]
  | [], _ => rfl
  | c :: cs, h => by
    have hc : ¬(c = sep) := fun e => h (List.mem_cons.mpr (Or.inl e.symm))
    rw [splitSep_cons sep c cs cs []
        (splitSep_of_no_sep sep cs (fun hm => h (List.mem_cons_of_mem c hm))),
      if_neg hc]

lemma joinSlash_append (ys : List (List Char)) (hy : ys ≠ []) :
    ∀ xs : List (List Char), xs ≠ [] →
      joinSlash (xs ++ ys) = joinSlash xs ++ '/' :: joinSlash ys := by
  intro xs
  induction xs with
  | nil => intro h; exact absurd rfl h
  | cons x xs' ih =>
    intro _
    cases xs' with
    | nil =>
      cases ys with
      | nil => exact absurd rfl hy
      | cons y ys' => rfl
    | cons x2 xs'' =>
      show joinSlash (x :: ((x2 :: xs'') ++ ys))
        = joinSlash (x :: x2 :: xs'') ++ '/' :: joinSlash ys
      rw [show joinSlash (x :: ((x2 :: xs'') ++ ys))
          = x ++ '/' :: joinSlash ((x2 :: xs'') ++ ys) from rfl,
        ih (by simp),
        show joinSlash (x :: x2 :: xs'') = x ++ '/' :: joinSlash (x2 :: xs'')
          from rfl]
      simp

lemma joinSlash_ne_nil : ∀ xs : List (List Char), xs ≠ [] →
    (∀ s ∈ xs, s ≠ []) → joinSlash xs ≠ []
  | [], h, _ => absurd rfl h
  | [x], _, hs => by
    show x ≠ []
    exact hs x (List.mem_cons_self x [])
  | x :: x2 :: xs, _, _ => by
    show x ++ '/' :: joinSlash (x2 :: xs) ≠ []
    simp

lemma splitSep_joinSlash : ∀ segs : List (List Char), segs ≠ [] →
    (∀ s ∈ segs, '/' ∉ s) → splitSep '/' (joinSlash segs) = segs
  | [], h, _ => absurd rfl h
  | [x], _, h => by
    show splitSep '/' x = [x]
    exact splitSep_of_no_sep '/' x (h x (List.mem_cons_self x []))
  | x :: x2 :: xs, _, h => by
    show splitSep '/' (x ++ '/' :: joinSlash (x2 :: xs)) = x :: x2 :: xs
    rw [splitSep_append '/' x (joinSlash (x2 :: xs)),
      splitSep_of_no_sep '/' x (h x (List.mem_cons_self _ _)),
      splitSep_joinSlash (x2 :: xs) (by simp)
        (fun s hs => h s (List.mem_cons_of_mem x hs))]
    rfl

lemma cleanStep_skip (abs : Bool) (st : List (List Char)) (c : List Char)
    (h : c = [] ∨ c = ['.']) : cleanStep abs st c = st := by
  unfold cleanStep
  rw [if_pos h]

lemma cleanStep_plain (abs : Bool) (st : List (List Char)) (c : List Char)
    (h1 : c ≠ []) (h2 : c ≠ ['.']) (h3 : c ≠ ['.', '.']) :
    cleanStep abs st c = c :: st := by
  unfold cleanStep
  rw [if_neg (fun h => h.elim h1 h2), if_neg h3]

lemma cleanStep_dotdot_nil (abs : Bool) :
    cleanStep abs [] ['.', '.'] = if abs then [] else [['.', '.']] := by
  unfold cleanStep
  rw [if_neg (by decide), if_pos rfl]

lemma cleanStep_dotdot_cons (abs : Bool) (top : List Char)
    (rest : List (List Char)) :
    cleanStep abs (top :: rest) ['.', '.']
      = if top = ['.', '.'] then ['.', '.'] :: top :: rest else rest := by
  unfold cleanStep
  rw [if_neg (by decide), if_pos rfl]

lemma cleanStack_append (abs : Bool) (st : List (List Char))
    (l1 l2 : List (List Char)) :
    cleanStack abs st (l1 ++ l2) = cleanStack abs (cleanStack abs st l1) l2 := by
  simp [cleanStack, List.foldl_append]

lemma cleanStack_skip_empty (abs : Bool) (st : List (List Char))
    (l : List (List Char)) :
    cleanStack abs st ([] :: l) = cleanStack abs st l := by
  show cleanStack abs (cleanStep abs st []) l = cleanStack abs st l
  rw [cleanStep_skip abs st [] (Or.inl rfl)]

lemma cleanStack_plain (abs : Bool) :
    ∀ (l st : List (List Char)),
      (∀ s ∈ l, s ≠ [] ∧ s ≠ ['.'] ∧ s ≠ ['.', '.']) →
      cleanStack abs st l = l.reverse ++ st
  | [], st, _ => by simp [cleanStack]
  | c :: cs, st, h => by
    obtain ⟨h1, h2, h3⟩ := h c (List.mem_cons_self _ _)
    show cleanStack abs (cleanStep abs st c) cs = (c :: cs).reverse ++ st
    rw [cleanStep_plain abs st c h1 h2 h3,
      cleanStack_plain abs cs (c :: st)
        (fun s hs => h s (List.mem_cons_of_mem _ hs))]
    simp

lemma cleanStack_ne_nil (abs : Bool) :
    ∀ (l st : List (List Char)), (∀ s ∈ st, s ≠ []) →
      ∀ s ∈ cleanStack abs st l, s ≠ []
  | [], _, hst => hst
  | c :: cs, st, hst => by
    show ∀ s ∈ cleanStack abs (cleanStep abs st c) cs, s ≠ []
    refine cleanStack_ne_nil abs cs (cleanStep abs st c) ?_
    intro x hx
    by_cases h1 : c = [] ∨ c = ['.']
    · rw [cleanStep_skip abs st c h1] at hx
      exact hst x hx
    · by_cases h2 : c = ['.', '.']
      · subst h2
        cases st with
        | nil =>
          rw [cleanStep_dotdot_nil abs] at hx
          cases abs with
          | false =>
            simp at hx
            subst hx
            simp
          | true => simp at hx
        | cons top rest =>
          rw [cleanStep_dotdot_cons abs top rest] at hx
          by_cases h3 : top = ['.', '.']
          · rw [if_pos h3] at hx
            rcases List.mem_cons.mp hx with rfl | hx'
            · simp
            · exact hst x hx'
          · rw [if_neg h3] at hx
            exact hst x (List.mem_cons_of_mem top hx)
      · rw [cleanStep_plain abs st c (fun e => h1 (Or.inl e))
          (fun e => h1 (Or.inr e)) h2] at hx
        rcases List.mem_cons.mp hx with rfl | hx'
        · exact fun e => h1 (Or.inl e)
        · exact hst x hx'

lemma cleanStack_abs_plain :
    ∀ (l st : List (List Char)),
      (∀ s ∈ st, plainSeg s) → (∀ s ∈ l, '/' ∉ s) →
      ∀ s ∈ cleanStack true st l, plainSeg s
  | [], _, hst, _ => hst
  | c :: cs, st, hst, hl => by
    show ∀ s ∈ cleanStack true (cleanStep true st c) cs, plainSeg s
    refine cleanStack_abs_plain cs (cleanStep true st c) ?_
      (fun s hs => hl s (List.mem_cons_of_mem _ hs))
    intro x hx
    by_cases h1 : c = [] ∨ c = ['.']
    · rw [cleanStep_skip true st c h1] at hx
      exact hst x hx
    · by_cases h2 : c = ['.', '.']
      · subst h2
        cases st with
        | nil =>
          rw [cleanStep_dotdot_nil true] at hx
          simp at hx
        | cons top rest =>
          rw [cleanStep_dotdot_cons true top rest,
            if_neg (hst top (List.mem_cons_self _ _)).2.2.1] at hx
          exact hst x (List.mem_cons_of_mem top hx)
      · rw [cleanStep_plain true st c (fun e => h1 (Or.inl e))
          (fun e => h1 (Or.inr e)) h2] at hx
        rcases List.mem_cons.mp hx with rfl | hx'
        · exact ⟨fun e => h1 (Or.inl e), fun e => h1 (Or.inr e), h2,
            hl x (List.mem_cons_self _ _)⟩
        · exact hst x hx'

lemma cleanChars_ne_nil (p : List Char) : cleanChars p ≠ [] := by
  intro h
  simp only [cleanChars] at h
  split at h
  · split at h
    · exact List.noConfusion h
    · exact List.noConfusion h
  · split at h
    · exact List.noConfusion h
    · simp_all

lemma pathClean_ne_empty (q : String) : pathClean q ≠ "" := by
  intro h
  exact cleanChars_ne_nil q.data (congrArg String.data h)

lemma isPrefixOf_append_self (xs ys : List Char) :
    xs.isPrefixOf (xs ++ ys) = true := by
  induction xs with
  | nil => simp [List.isPrefixOf]
  | cons c cs ih => simp [List.isPrefixOf, ih]

lemma cleanChars_cons (c : Char) (q : List Char) :
    cleanChars (c :: q)
      = (if (c == '/') = true
         then (if joinSlash (cleanStack (c == '/') [] (splitSep '/' (c :: q))).reverse = []
               then ['/']
               else '/' :: joinSlash (cleanStack (c == '/') [] (splitSep '/' (c :: q))).reverse)
         else (if joinSlash (cleanStack (c == '/') [] (splitSep '/' (c :: q))).reverse = []
               then ['.']
               else joinSlash (cleanStack (c == '/') [] (splitSep '/' (c :: q))).reverse)) := rfl

lemma goJoin_pair (r q : String) (hr : r ≠ "") :
    goJoin [r, q] = (⟨cleanChars (r.data ++ '/' :: q.data)⟩ : String) := by
  unfold goJoin
  rw [List.dropWhile_cons, if_neg (by simp [hr])]
  rfl

lemma goJoin_slash_name (name : String) (hn : goJoin ["/", name] ≠ "/") :
    (goJoin ["/", name]).data
      = '/' :: joinSlash (cleanStack true [] (splitSep '/' name.data)).reverse
    ∧ (cleanStack true [] (splitSep '/' name.data)).reverse ≠ []
    ∧ ∀ s ∈ (cleanStack true [] (splitSep '/' name.data)).reverse, plainSeg s := by
  have hplain : ∀ s ∈ (cleanStack true [] (splitSep '/' name.data)).reverse,
      plainSeg s := by
    intro s hs
    exact cleanStack_abs_plain (splitSep '/' name.data) [] (by simp)
      (splitSep_no_sep '/' name.data) s (List.mem_reverse.mp hs)
  have hG : goJoin ["/", name]
      = (⟨cleanChars ('/' :: '/' :: name.data)⟩ : String) := rfl
  have habs : cleanChars ('/' :: '/' :: name.data)
      = (if joinSlash (cleanStack true [] (splitSep '/' name.data)).reverse = []
         then ['/']
         else '/' :: joinSlash (cleanStack true [] (splitSep '/' name.data)).reverse) := by
    rw [cleanChars_cons '/' ('/' :: name.data)]
    simp only [beq_self_eq_true, if_true]
    rw [splitSep_cons_sep '/' ('/' :: name.data),
      splitSep_cons_sep '/' name.data, cleanStack_skip_empty,
      cleanStack_skip_empty]
  have hbody_ne :
      joinSlash (cleanStack true [] (splitSep '/' name.data)).reverse ≠ [] := by
    intro hb
    apply hn
    rw [hG, habs, if_pos hb]
  have hsegs_ne : (cleanStack true [] (splitSep '/' name.data)).reverse ≠ [] :=
    fun hs => hbody_ne (by simp [hs, joinSlash])
  refine ⟨?_, hsegs_ne, hplain⟩
  rw [hG, habs, if_neg hbody_ne]

/-- C3 as amended: a target path that normalizes (against `"/"`) to the
root — `"."` in particular — fails with the PathSanitization error; any
other target path is not rejected but silently normalized, and for a
clean root (other than `"/"` and `"."`) every accepted result lies
strictly below the root: escaping paths are clamped, never errors. -/
theorem sanitizePath_amended :
    (∀ root : String,
      sanitizePath root "." = Except.error (StoreError.pathError "/"))
    ∧ (∀ root name p : String, pathClean root = root → root ≠ "." → root ≠ "/" →
        sanitizePath root name = Except.ok p →
        p ≠ root ∧ ((root ++ "/").data.isPrefixOf p.data) = true) := by
  constructor
  · intro root
    rfl
  · intro root name p hclean hdot hslash hok
    have hok' : (if goJoin ["/", name] = "/" then
          Except.error (StoreError.pathError (goJoin ["/", name]))
        else Except.ok (goJoin [root, goJoin ["/", name]]))
        = Except.ok p := hok
    by_cases hn : goJoin ["/", name] = "/"
    · rw [if_pos hn] at hok'
      exact Except.noConfusion hok'
    rw [if_neg hn] at hok'
    injection hok' with hp
    obtain ⟨hNdata, hsegs_ne, hplain⟩ := goJoin_slash_name name hn
    have hroot_ne : root ≠ "" := fun h =>
      pathClean_ne_empty root (by rw [hclean]; exact h)
    rcases hrd : root.data with _ | ⟨r0, rr⟩
    · exact absurd (String.ext hrd) hroot_ne
    -- the cleaned root in terms of its own stack
    have hRC : cleanChars (r0 :: rr) = r0 :: rr := by
      have h2 : cleanChars root.data = root.data := congrArg String.data hclean
      rw [hrd] at h2
      exact h2
    have hRC2 : (if (r0 == '/') = true
        then (if joinSlash (cleanStack (r0 == '/') [] (splitSep '/' (r0 :: rr))).reverse = []
              then ['/']
              else '/' :: joinSlash (cleanStack (r0 == '/') [] (splitSep '/' (r0 :: rr))).reverse)
        else (if joinSlash (cleanStack (r0 == '/') [] (splitSep '/' (r0 :: rr))).reverse = []
              then ['.']
              else joinSlash (cleanStack (r0 == '/') [] (splitSep '/' (r0 :: rr))).reverse))
        = r0 :: rr := by
      rw [← cleanChars_cons r0 rr]
      exact hRC
    -- p as a cleanChars term
    have hpc : p = (⟨cleanChars ((r0 :: rr) ++ '/' :: '/' ::
        joinSlash (cleanStack true [] (splitSep '/' name.data)).reverse)⟩ : String) := by
      rw [← hp, goJoin_pair root (goJoin ["/", name]) hroot_ne, hrd, hNdata]
    -- the combined stack: the root's stack with the name's plain segments on top
    have hsB : splitSep '/'
        (joinSlash (cleanStack true [] (splitSep '/' name.data)).reverse)
        = (cleanStack true [] (splitSep '/' name.data)).reverse :=
      splitSep_joinSlash _ hsegs_ne (fun s hs => (hplain s hs).2.2.2)
    have hstack : cleanStack (r0 == '/') [] (splitSep '/' ((r0 :: rr) ++ '/' :: '/' ::
          joinSlash (cleanStack true [] (splitSep '/' name.data)).reverse))
        = ((cleanStack true [] (splitSep '/' name.data)).reverse).reverse
            ++ cleanStack (r0 == '/') [] (splitSep '/' (r0 :: rr)) := by
      rw [splitSep_append '/' (r0 :: rr)
          ('/' :: joinSlash (cleanStack true [] (splitSep '/' name.data)).reverse),
        splitSep_cons_sep '/'
          (joinSlash (cleanStack true [] (splitSep '/' name.data)).reverse),
        hsB, cleanStack_append, cleanStack_skip_empty,
        cleanStack_plain (r0 == '/')
          ((cleanStack true [] (splitSep '/' name.data)).reverse)
          (cleanStack (r0 == '/') [] (splitSep '/' (r0 :: rr)))
          (fun s hs => ⟨(hplain s hs).1, (hplain s hs).2.1, (hplain s hs).2.2.1⟩)]
    have hSt0_ne : ∀ s ∈ (cleanStack (r0 == '/') [] (splitSep '/' (r0 :: rr))).reverse,
        s ≠ [] := by
      intro s hs
      exact cleanStack_ne_nil (r0 == '/') (splitSep '/' (r0 :: rr)) [] (by simp)
        s (List.mem_reverse.mp hs)
    -- everything reduces to the shape of p's data
    suffices hsuf : p.data = root.data ++ '/' ::
        joinSlash (cleanStack true [] (splitSep '/' name.data)).reverse by
      constructor
      · intro he
        have hlen : p.data.length = root.data.length :=
          congrArg (fun s : String => s.data.length) he
        rw [hsuf] at hlen
        simp at hlen
      · have happ : (root ++ "/").data = root.data ++ ['/'] := rfl
        rw [happ, hsuf, show root.data ++ '/' ::
            joinSlash (cleanStack true [] (splitSep '/' name.data)).reverse
          = (root.data ++ ['/'])
            ++ joinSlash (cleanStack true [] (splitSep '/' name.data)).reverse
          by simp]
        exact isPrefixOf_append_self _ _
    rw [hrd]
    by_cases habs : (r0 == '/') = true
    · rw [if_pos habs] at hRC2
      by_cases hB0 : joinSlash (cleanStack (r0 == '/') [] (splitSep '/' (r0 :: rr))).reverse = []
      · rw [if_pos hB0] at hRC2
        exfalso
        apply hslash
        apply String.ext
        rw [hrd, ← hRC2]
      · rw [if_neg hB0] at hRC2
        have hrc_ne : (cleanStack (r0 == '/') [] (splitSep '/' (r0 :: rr))).reverse ≠ [] :=
          fun h => hB0 (by simp [h, joinSlash])
        rw [hpc]
        show cleanChars ((r0 :: rr) ++ '/' :: '/' ::
            joinSlash (cleanStack true [] (splitSep '/' name.data)).reverse)
          = (r0 :: rr) ++ '/' ::
            joinSlash (cleanStack true [] (splitSep '/' name.data)).reverse
        rw [show (r0 :: rr) ++ '/' :: '/' ::
            joinSlash (cleanStack true [] (splitSep '/' name.data)).reverse
          = r0 :: (rr ++ '/' :: '/' ::
            joinSlash (cleanStack true [] (splitSep '/' name.data)).reverse) from rfl]
        rw [cleanChars_cons r0 (rr ++ '/' :: '/' ::
          joinSlash (cleanStack true [] (splitSep '/' name.data)).reverse)]
        rw [show r0 :: (rr ++ '/' :: '/' ::
            joinSlash (cleanStack true [] (splitSep '/' name.data)).reverse)
          = (r0 :: rr) ++ '/' :: '/' ::
            joinSlash (cleanStack true [] (splitSep '/' name.data)).reverse from rfl]
        rw [if_pos habs, hstack]
        rw [show (((cleanStack true [] (splitSep '/' name.data)).reverse).reverse
            ++ cleanStack (r0 == '/') [] (splitSep '/' (r0 :: rr))).reverse
          = (cleanStack (r0 == '/') [] (splitSep '/' (r0 :: rr))).reverse
            ++ (cleanStack true [] (splitSep '/' name.data)).reverse by simp]
        rw [joinSlash_append ((cleanStack true [] (splitSep '/' name.data)).reverse)
          hsegs_ne ((cleanStack (r0 == '/') [] (splitSep '/' (r0 :: rr))).reverse)
          hrc_ne]
        rw [if_neg (by simp)]
        rw [show ('/' : Char) :: (joinSlash (cleanStack (r0 == '/') []
              (splitSep '/' (r0 :: rr))).reverse ++ '/' ::
              joinSlash (cleanStack true [] (splitSep '/' name.data)).reverse)
          = ('/' :: joinSlash (cleanStack (r0 == '/') []
              (splitSep '/' (r0 :: rr))).reverse) ++ '/' ::
              joinSlash (cleanStack true [] (splitSep '/' name.data)).reverse
          from rfl]
        rw [hRC2]
    · rw [if_neg habs] at hRC2
      by_cases hB0 : joinSlash (cleanStack (r0 == '/') [] (splitSep '/' (r0 :: rr))).reverse = []
      · rw [if_pos hB0] at hRC2
        exfalso
        apply hdot
        apply String.ext
        rw [hrd, ← hRC2]
      · rw [if_neg hB0] at hRC2
        have hrc_ne : (cleanStack (r0 == '/') [] (splitSep '/' (r0 :: rr))).reverse ≠ [] :=
          fun h => hB0 (by simp [h, joinSlash])
        rw [hpc]
        show cleanChars ((r0 :: rr) ++ '/' :: '/' ::
            joinSlash (cleanStack true [] (splitSep '/' name.data)).reverse)
          = (r0 :: rr) ++ '/' ::
            joinSlash (cleanStack true [] (splitSep '/' name.data)).reverse
        rw [show (r0 :: rr) ++ '/' :: '/' ::
            joinSlash (cleanStack true [] (splitSep '/' name.data)).reverse
          = r0 :: (rr ++ '/' :: '/' ::
            joinSlash (cleanStack true [] (splitSep '/' name.data)).reverse) from rfl]
        rw [cleanChars_cons r0 (rr ++ '/' :: '/' ::
          joinSlash (cleanStack true [] (splitSep '/' name.data)).reverse)]
        rw [show r0 :: (rr ++ '/' :: '/' ::
            joinSlash (cleanStack true [] (splitSep '/' name.data)).reverse)
          = (r0 :: rr) ++ '/' :: '/' ::
            joinSlash (cleanStack true [] (splitSep '/' name.data)).reverse from rfl]
        rw [if_neg habs, hstack]
        rw [show (((cleanStack true [] (splitSep '/' name.data)).reverse).reverse
            ++ cleanStack (r0 == '/') [] (splitSep '/' (r0 :: rr))).reverse
          = (cleanStack (r0 == '/') [] (splitSep '/' (r0 :: rr))).reverse
            ++ (cleanStack true [] (splitSep '/' name.data)).reverse by simp]
        rw [joinSlash_append ((cleanStack true [] (splitSep '/' name.data)).reverse)
          hsegs_ne ((cleanStack (r0 == '/') [] (splitSep '/' (r0 :: rr))).reverse)
          hrc_ne]
        rw [if_neg (by simp)]
        rw [hRC2]

/-- Witness for `sanitizePath_amended`: the root `/store` is clean; `"."`
is rejected, and the escaping name `../a` lands strictly below the root. -/
theorem sanitizePath_amended_witness :
    sanitizePath "/store" "." = Except.error (StoreError.pathError "/")
    ∧ ("/store/a" : String) ≠ "/store"
    ∧ (("/store" ++ "/").data.isPrefixOf ("/store/a" : String).data) = true := by
  refine ⟨sanitizePath_amended.1 "/store", ?_, ?_⟩
  · exact (sanitizePath_amended.2 "/store" "../a" "/store/a" (by decide)
      (by decide) (by decide) (by decide)).1
  · exact (sanitizePath_amended.2 "/store" "../a" "/store/a" (by decide)
      (by decide) (by decide) (by decide)).2
